import Mathlib

set_option maxHeartbeats 1000000

/-!
Verification development for the NANA-AI adaptive soundscape player.

The definitions below are a shallow embedding of the TypeScript source:
  * `src/App.tsx`          — segment scheduler loop (`playMusicLoop`,
                             `generateNextSegment`) and the preset library
                             (`savePreset` / `loadPreset`);
  * `src/services/audioEngine.ts` — the audio engine (noise, binaural pair,
                             microphone analysis, adaptive loudness loop,
                             per-note synthesis graph);
  * `src/services/geminiService.ts` — `generateLullaby` response handling.

JavaScript numbers are modelled as rationals (`ℚ`), with a dedicated
two-constructor type `JsNum` where `-Infinity` can actually arise
(`Math.max` over an empty spread).  React state reads inside one scheduler
tick are modelled as reads from the snapshot captured by the tick's closure:
`setX` calls replace the state for later ticks but do not mutate the local
bindings of the running closure.
-/

namespace NanaAI

/-- Noise colours, from `types.ts` (`NoiseType`). -/
inductive NoiseType where
  | off | white | grey | brown
deriving DecidableEq, Repr

/-- One note event as consumed by `playComposition` / produced by the
composer JSON schema: symbolic pitch, duration and onset in seconds. -/
structure Note where
  note : String
  duration : ℚ
  startTime : ℚ
deriving DecidableEq, Repr

/-- A generated musical segment (`Composition` in `types.ts`), restricted to
the fields the scheduler and the preset library actually read. -/
structure Composition where
  name : String
  notes : List Note
  bpm : ℚ
  description : String
deriving DecidableEq, Repr

/-- A JavaScript number that may be `-Infinity`; `Math.max()` applied to an
empty spread returns `-Infinity`. -/
inductive JsNum where
  | negInf
  | num (q : ℚ)
deriving DecidableEq, Repr

/-- One accumulation step of `Math.max`. -/
def jsMax : JsNum → ℚ → JsNum
  | .negInf, q => .num q
  | .num p, q => .num (max p q)

/-- Model of `Math.max(...notes.map(n => n.startTime + n.duration))`: the fold starts
from `-Infinity`, exactly as the variadic `Math.max` does. -/
def maxSpan (notes : List Note) : JsNum :=
  notes.foldl (fun acc n => jsMax acc (n.startTime + n.duration)) .negInf

/-- JavaScript truthiness of a number: `0` is falsy, every other value —
including `-Infinity` — is truthy. -/
def jsTruthy : JsNum → Bool
  | .negInf => true
  | .num q => q != 0

/-- The JavaScript `v || d` idiom on numbers: yields `d` only when `v` is
falsy. -/
def jsOr (v : JsNum) (d : ℚ) : JsNum := if jsTruthy v then v else .num d

/-- Seconds to milliseconds; `-Infinity * 1000 = -Infinity`. -/
def toMs : JsNum → JsNum
  | .negInf => .negInf
  | .num q => .num (q * 1000)

/-- Model of `loopTimeMs` as computed in `playMusicLoop` (App.tsx line 192-193):
`(Math.max(...track.notes.map(n => n.startTime + n.duration)) || 15) * 1000`. -/
def loopDelayMs (notes : List Note) : JsNum := toMs (jsOr (maxSpan notes) 15)

theorem jsOr_num_ne (q d : ℚ) (h : q ≠ 0) : jsOr (.num q) d = .num q := by
  simp [jsOr, jsTruthy, h]

/-- The scheduler-visible React state snapshot captured by a tick's closure:
`composition`, `nextComposition` and `isGenerating` (App.tsx). -/
structure SchedState where
  composition : Option Composition
  nextComposition : Option Composition
  isGenerating : Bool
deriving DecidableEq, Repr

/-- Model of `generateNextSegment`'s `prevContext` (App.tsx line 162):
`composition ? composition.name : ''`. -/
def prevContextOf : Option Composition → String
  | some c => c.name
  | none => ""

/-- Observable outcome of one `playMusicLoop` tick: the state it leaves for
later ticks, the notes it scheduled for playback, the `prevContext` of the
generation request it fired (if any) and the delay armed for the next tick. -/
structure TickOut where
  state : SchedState
  played : Option (List Note)
  genReq : Option String
  delayMs : JsNum
deriving DecidableEq, Repr

/-- One tick of `playMusicLoop` (App.tsx lines 177-201), assuming
`isPlaying` (the function returns immediately otherwise).
`const track = nextComposition || composition`; when `track` is the
prefetched `next`, it is promoted to `current`, `next` is cleared, and
`generateNextSegment` is fired — and that call reads the `composition`
binding of the closure, which still holds the pre-promotion value, because
`setComposition` does not mutate the captured variable. -/
def playMusicLoopTick (s : SchedState) : TickOut :=
  match s.nextComposition with
  | some nxt =>
      { state := { composition := some nxt, nextComposition := none, isGenerating := true }
        played := some nxt.notes
        genReq := some (prevContextOf s.composition)
        delayMs := loopDelayMs nxt.notes }
  | none =>
      match s.composition with
      | some cur =>
          if !s.isGenerating then
            { state := { composition := some cur, nextComposition := none, isGenerating := true }
              played := some cur.notes
              genReq := some (prevContextOf s.composition)
              delayMs := loopDelayMs cur.notes }
          else
            { state := s
              played := some cur.notes
              genReq := none
              delayMs := loopDelayMs cur.notes }
      | none =>
          if !s.isGenerating then
            { state := { composition := none, nextComposition := none, isGenerating := true }
              played := none
              genReq := some (prevContextOf s.composition)
              delayMs := .num 1000 }
          else
            { state := s
              played := none
              genReq := none
              delayMs := .num 1000 }

/-- C1: for a played composition the armed delay is the maximum of
`startTime + duration` over its notes (here a one-note composition spanning
12.5 s yields a 12 500 ms delay), but for an *empty* note list the fallback
of 15 s is NOT taken: `Math.max()` of an empty spread is `-Infinity`, which
is truthy, so `|| 15` is skipped and the timer is armed with `-Infinity`
milliseconds (clamped to an immediate fire by `setTimeout`) instead of the
15 000 ms the spec requires. -/
theorem playMusicLoop_empty_notes_delay :
    (playMusicLoopTick ⟨some ⟨"Empty", [], 60, ""⟩, none, true⟩).delayMs = JsNum.negInf ∧
    JsNum.negInf ≠ JsNum.num (15 * 1000) ∧
    (playMusicLoopTick
      ⟨some ⟨"Spans", [⟨"A4", 5/2, 10⟩], 60, ""⟩, none, true⟩).delayMs
      = JsNum.num (25/2 * 1000) := by
  refine ⟨rfl, by decide, ?_⟩
  simp only [playMusicLoopTick, loopDelayMs, maxSpan, List.foldl, jsMax, toMs,
    Bool.not_true, cond_false]
  rw [jsOr_num_ne _ _ (by norm_num)]
  simp only [toMs]
  norm_num

/-- C7 counterexample: with current composition "Alpha" and prefetched next
"Beta", the tick does promote "Beta" and clear `next`, but the generation
request it fires carries `prevContext = "Alpha"` — the *previously* current
composition's name, not the just-promoted "Beta". -/
theorem promotion_uses_stale_context :
    (playMusicLoopTick
      ⟨some ⟨"Alpha", [], 60, ""⟩, some ⟨"Beta", [], 60, ""⟩, false⟩).state.composition
        = some ⟨"Beta", [], 60, ""⟩ ∧
    (playMusicLoopTick
      ⟨some ⟨"Alpha", [], 60, ""⟩, some ⟨"Beta", [], 60, ""⟩, false⟩).state.nextComposition
        = none ∧
    (playMusicLoopTick
      ⟨some ⟨"Alpha", [], 60, ""⟩, some ⟨"Beta", [], 60, ""⟩, false⟩).genReq
        = some "Alpha" ∧
    "Alpha" ≠ "Beta" := by
  refine ⟨rfl, rfl, rfl, by decide⟩

/-- C7 (amended): on a tick that observes a prefetched `next`, the scheduler
promotes it to `current` and clears `next`, but the generation request it
fires uses the *previously current* composition's name as context — the
closure reads the pre-promotion `composition` binding, since React state
setters do not mutate the captured variable. -/
theorem promotion_fires_gen_with_previous_name (s : SchedState)
    (cur nxt : Composition)
    (hc : s.composition = some cur) (hn : s.nextComposition = some nxt) :
    (playMusicLoopTick s).state.composition = some nxt ∧
    (playMusicLoopTick s).state.nextComposition = none ∧
    (playMusicLoopTick s).genReq = some cur.name := by
  cases s with
  | mk c n g =>
    cases hc
    cases hn
    simp [playMusicLoopTick, prevContextOf]

/-- C7 witness: the amended promotion theorem applied to a concrete state. -/
theorem promotion_fires_gen_with_previous_name_witness :
    (playMusicLoopTick
        ⟨some ⟨"Alpha", [], 60, ""⟩, some ⟨"Beta", [], 60, ""⟩, false⟩).state.composition
      = some ⟨"Beta", [], 60, ""⟩ ∧
    (playMusicLoopTick
        ⟨some ⟨"Alpha", [], 60, ""⟩, some ⟨"Beta", [], 60, ""⟩, false⟩).state.nextComposition
      = none ∧
    (playMusicLoopTick
        ⟨some ⟨"Alpha", [], 60, ""⟩, some ⟨"Beta", [], 60, ""⟩, false⟩).genReq
      = some (Composition.name ⟨"Alpha", [], 60, ""⟩) :=
  promotion_fires_gen_with_previous_name _ _ _ rfl rfl

/-!
## Audio engine model (src/services/audioEngine.ts)

The Web Audio graph is modelled as a set of directed connections between
named nodes.  Nodes created afresh on every `start*` call (noise source,
oscillator pairs, per-note voices) carry a generation number drawn from a
`fresh` counter; singleton nodes (context destination, master gain, FX bus,
microphone source/analyser, music gain) are constants.  A `connect(dst,
output, input)` call with an explicit input index keeps that index in the
connection (used for the hard left/right panning into channel mergers).
-/

/-- Nodes of the audio graph built by `AudioEngine`. -/
inductive NodeId where
  | destination
  | masterGain
  | reverbNode | reverbGain
  | delayNode | delayFeedback | delayGain
  | micSource | micAnalyser
  | musicGain
  | noiseSource (g : ℕ) | noiseFilter (g : ℕ) | noiseGain (g : ℕ)
  | leftOsc (g : ℕ) | rightOsc (g : ℕ)
  | leftChGain (g : ℕ) | rightChGain (g : ℕ)
  | binMerger (g : ℕ) | binauralGain (g : ℕ)
  | osc1 (g : ℕ) | osc1Gain (g : ℕ)
  | osc2 (g : ℕ) | osc2Gain (g : ℕ)
  | noteMerger (g : ℕ)
deriving DecidableEq, Repr

/-- One `src.connect(dst)` edge; `inCh` records the explicit input-channel
index when the three-argument `connect(dst, 0, ch)` form is used. -/
structure Conn where
  src : NodeId
  dst : NodeId
  inCh : Option ℕ
deriving DecidableEq, Repr

/-- The `AudioEngine` instance state: the graph plus the class fields the
claims are about.  `runningNoise` / `runningBinaural` list the generation
numbers of sources that have been `start()`ed and not yet `stop()`ed;
`noiseSrc` / `binPair` mirror the `this.noiseSource` / `this.leftOsc`
role references. -/
structure Engine where
  ctxInit : Bool
  conns : List Conn
  noiseSrc : Option ℕ
  binPair : Option ℕ
  micOn : Bool
  musicGainInit : Bool
  runningNoise : List ℕ
  runningBinaural : List ℕ
  baseNoiseVolume : ℚ
  noiseGainVal : Option ℚ
  leftFreq : Option ℚ
  rightFreq : Option ℚ
  binVolume : Option ℚ
  isAdaptive : Bool
  adaptiveLoopOn : Bool
  fresh : ℕ
deriving DecidableEq, Repr

/-- Edges wired once by `initContext`: master gain to destination, the
convolver/reverb send and the feedback delay send (audioEngine lines 41-68). -/
def baseConns : List Conn :=
  [⟨.masterGain, .destination, none⟩,
   ⟨.delayNode, .delayFeedback, none⟩,
   ⟨.delayFeedback, .delayNode, none⟩,
   ⟨.reverbNode, .reverbGain, none⟩,
   ⟨.reverbGain, .masterGain, none⟩,
   ⟨.delayNode, .delayGain, none⟩,
   ⟨.delayGain, .masterGain, none⟩]

/-- Model of `initContext` (lines 41-69): lazily creates the context and the FX bus;
a no-op when the context already exists. -/
def initContext (e : Engine) : Engine :=
  if e.ctxInit then e
  else { e with ctxInit := true, conns := e.conns ++ baseConns }

/-- Model of `node.disconnect()`: drop every outgoing edge of `n`. -/
def disconnectFrom (n : NodeId) (cs : List Conn) : List Conn :=
  cs.filter (fun c => c.src != n)

/-- Model of `stopNoise` (lines 222-225): stop and disconnect the current noise
source if any, then null the reference. -/
def stopNoise (e : Engine) : Engine :=
  match e.noiseSrc with
  | some g =>
      { e with runningNoise := e.runningNoise.filter (fun x => x != g),
               conns := disconnectFrom (.noiseSource g) e.conns,
               noiseSrc := none }
  | none => { e with noiseSrc := none }

/-- Model of `startNoise(type, volume)` (lines 177-220): init context, record the
base volume, always stop the previous source first, return early for
`NoiseType.OFF`, otherwise build source → filter → gain → master and start
the looping buffer source. -/
def startNoise (e : Engine) (t : NoiseType) (volume : ℚ) : Engine :=
  let e := initContext e
  let e := { e with baseNoiseVolume := volume }
  let e := stopNoise e
  if t = .off then e
  else
    let g := e.fresh
    { e with
      fresh := g + 1
      noiseSrc := some g
      runningNoise := g :: e.runningNoise
      noiseGainVal := some volume
      conns := e.conns ++
        [⟨.noiseSource g, .noiseFilter g, none⟩,
         ⟨.noiseFilter g, .noiseGain g, none⟩,
         ⟨.noiseGain g, .masterGain, none⟩] }

/-- Model of `stopBinaural` (lines 351-356): stop and disconnect both oscillators of
the current pair, then null the references. -/
def stopBinaural (e : Engine) : Engine :=
  match e.binPair with
  | some g =>
      { e with
        runningBinaural := e.runningBinaural.filter (fun x => x != g),
        conns := disconnectFrom (.rightOsc g) (disconnectFrom (.leftOsc g) e.conns),
        binPair := none, leftFreq := none, rightFreq := none }
  | none => e

/-- Model of `startBinaural(carrierFreq, beatFreq, volume)` (lines 322-350): init
context, tear down the previous pair, then build merger → binaural gain →
master, the left oscillator at `carrierFreq` into merger input channel 0 and
the right oscillator at `carrierFreq + beatFreq` into input channel 1, and
start both oscillators. -/
def startBinaural (e : Engine) (carrierFreq beatFreq volume : ℚ) : Engine :=
  let e := initContext e
  let e := stopBinaural e
  let g := e.fresh
  { e with
    fresh := g + 1
    binPair := some g
    runningBinaural := g :: e.runningBinaural
    leftFreq := some carrierFreq
    rightFreq := some (carrierFreq + beatFreq)
    binVolume := some volume
    conns := e.conns ++
      [⟨.binMerger g, .binauralGain g, none⟩,
       ⟨.binauralGain g, .masterGain, none⟩,
       ⟨.leftOsc g, .leftChGain g, none⟩,
       ⟨.leftChGain g, .binMerger g, some 0⟩,
       ⟨.rightOsc g, .rightChGain g, none⟩,
       ⟨.rightChGain g, .binMerger g, some 1⟩] }

/-- Model of `enableAdaptiveNoise(enable)` (lines 94-119).  `micGranted` stands for
the outcome of the `getUserMedia` call: when it rejects, the `catch` block
forces `isAdaptive` back off.  On success the microphone source is created
at most once and connected to the analyser only — deliberately never to any
output ("We do NOT connect mic to destination to avoid feedback loop"). -/
def micInit (e : Engine) : Engine :=
  if e.micOn then e
  else { e with micOn := true,
                conns := e.conns ++ [⟨.micSource, .micAnalyser, none⟩] }

/-- Model of `enableAdaptiveNoise(enable)` proper: dispatch on the flag and on the
microphone-permission outcome, then start or stop the polling loop. -/
def enableAdaptiveNoise (e : Engine) (enable micGranted : Bool) : Engine :=
  if enable then
    if micGranted then
      { micInit (initContext { e with isAdaptive := true }) with adaptiveLoopOn := true }
    else { e with isAdaptive := false }
  else
    { e with isAdaptive := false, adaptiveLoopOn := false }

/-- The five `connect` calls made for one note of `playComposition`
(lines 260-309): two envelope gains merged left/right into a per-note
channel merger that feeds the shared music gain. -/
def noteConns (g : ℕ) : List Conn :=
  [⟨.osc1 g, .osc1Gain g, none⟩,
   ⟨.osc2 g, .osc2Gain g, none⟩,
   ⟨.osc1Gain g, .noteMerger g, some 0⟩,
   ⟨.osc2Gain g, .noteMerger g, some 1⟩,
   ⟨.noteMerger g, .musicGain, none⟩]

/-- First-use creation of the shared music gain, routed to master and to
both FX sends (lines 249-256). -/
def musicInit (e : Engine) : Engine :=
  if e.musicGainInit then e
  else { e with
         musicGainInit := true
         conns := e.conns ++
           [⟨.musicGain, .masterGain, none⟩,
            ⟨.musicGain, .reverbNode, none⟩,
            ⟨.musicGain, .delayNode, none⟩] }

/-- The `notes.forEach` body of `playComposition`: one dual-oscillator voice
per note, each drawing a fresh generation number. -/
def addVoices (e : Engine) (notes : List Note) : Engine :=
  notes.foldl
    (fun acc _ =>
      { acc with fresh := acc.fresh + 1, conns := acc.conns ++ noteConns acc.fresh })
    e

/-- Model of `playComposition(notes)` (lines 245-310): init context, create the
shared music gain on first use, then build one voice per note. -/
def playComposition (e : Engine) (notes : List Note) : Engine :=
  addVoices (musicInit (initContext e)) notes

/-- Model of `stopAll` (lines 357-370): stop binaural and noise, stop the adaptive
polling loop and release the cached microphone stream (the mic source node
is nulled but never explicitly disconnected). -/
def stopAll (e : Engine) : Engine :=
  let e := stopBinaural e
  let e := stopNoise e
  { e with adaptiveLoopOn := false, micOn := false }

/-- The freshly constructed engine (`new AudioEngine()`, lazy init). -/
def initialEngine : Engine :=
  { ctxInit := false, conns := [], noiseSrc := none, binPair := none,
    micOn := false, musicGainInit := false, runningNoise := [],
    runningBinaural := [], baseNoiseVolume := 1/10, noiseGainVal := none,
    leftFreq := none, rightFreq := none, binVolume := none,
    isAdaptive := false, adaptiveLoopOn := false, fresh := 0 }

/-- The public engine calls a client can issue, as one op type. -/
inductive EngOp where
  | startNoise (t : NoiseType) (vol : ℚ)
  | stopNoise
  | startBinaural (c b v : ℚ)
  | stopBinaural
  | enableAdaptive (enable micGranted : Bool)
  | playComposition (notes : List Note)
  | stopAll
deriving DecidableEq, Repr

/-- Interpret one engine call. -/
def stepOp (e : Engine) : EngOp → Engine
  | .startNoise t v => startNoise e t v
  | .stopNoise => stopNoise e
  | .startBinaural c b v => startBinaural e c b v
  | .stopBinaural => stopBinaural e
  | .enableAdaptive en g => enableAdaptiveNoise e en g
  | .playComposition ns => playComposition e ns
  | .stopAll => stopAll e

/-- Run a sequence of engine calls from the freshly constructed engine. -/
def run (ops : List EngOp) : Engine := ops.foldl stepOp initialEngine

/-!
## Role-exclusivity invariant (claims C3, C10)

`rolesExact` says the running sources of each role are exactly the ones the
engine's role references point at — hence there is never more than one
running noise source or binaural pair.
-/

/-- The running sources are exactly the referenced ones. -/
def rolesExact (e : Engine) : Prop :=
  e.runningNoise = e.noiseSrc.toList ∧ e.runningBinaural = e.binPair.toList

theorem rolesExact_initial : rolesExact initialEngine := ⟨rfl, rfl⟩

theorem initContext_roles (e : Engine) :
    (initContext e).runningNoise = e.runningNoise ∧
    (initContext e).noiseSrc = e.noiseSrc ∧
    (initContext e).runningBinaural = e.runningBinaural ∧
    (initContext e).binPair = e.binPair ∧
    (initContext e).fresh = e.fresh := by
  unfold initContext; split <;> simp

theorem stopNoise_noiseSrc (e : Engine) : (stopNoise e).noiseSrc = none := by
  unfold stopNoise; split <;> rfl

theorem stopNoise_runningNoise (e : Engine)
    (h : e.runningNoise = e.noiseSrc.toList) :
    (stopNoise e).runningNoise = [] := by
  unfold stopNoise
  cases hs : e.noiseSrc with
  | none => rw [hs] at h; simpa using h
  | some g => rw [hs] at h; simp [h]

theorem stopNoise_bin (e : Engine) :
    (stopNoise e).runningBinaural = e.runningBinaural ∧
    (stopNoise e).binPair = e.binPair ∧
    (stopNoise e).fresh = e.fresh ∧
    (stopNoise e).baseNoiseVolume = e.baseNoiseVolume := by
  unfold stopNoise; split <;> simp

theorem stopBinaural_binPair (e : Engine) : (stopBinaural e).binPair = none := by
  unfold stopBinaural; split <;> simp_all

theorem stopBinaural_runningBinaural (e : Engine)
    (h : e.runningBinaural = e.binPair.toList) :
    (stopBinaural e).runningBinaural = [] := by
  unfold stopBinaural
  cases hs : e.binPair with
  | none => rw [hs] at h; simpa using h
  | some g => rw [hs] at h; simp [h]

theorem stopBinaural_noise (e : Engine) :
    (stopBinaural e).runningNoise = e.runningNoise ∧
    (stopBinaural e).noiseSrc = e.noiseSrc ∧
    (stopBinaural e).fresh = e.fresh := by
  unfold stopBinaural; split <;> simp

theorem stopNoise_rolesExact (e : Engine) (h : rolesExact e) :
    rolesExact (stopNoise e) := by
  refine ⟨?_, ?_⟩
  · rw [stopNoise_runningNoise e h.1, stopNoise_noiseSrc]; rfl
  · rw [(stopNoise_bin e).1, (stopNoise_bin e).2.1]; exact h.2

theorem stopBinaural_rolesExact (e : Engine) (h : rolesExact e) :
    rolesExact (stopBinaural e) := by
  refine ⟨?_, ?_⟩
  · rw [(stopBinaural_noise e).1, (stopBinaural_noise e).2.1]; exact h.1
  · rw [stopBinaural_runningBinaural e h.2, stopBinaural_binPair]; rfl

theorem initContext_rolesExact (e : Engine) (h : rolesExact e) :
    rolesExact (initContext e) := by
  have i := initContext_roles e
  exact ⟨by rw [i.1, i.2.1]; exact h.1, by rw [i.2.2.1, i.2.2.2.1]; exact h.2⟩

theorem startNoise_rolesExact (e : Engine) (t : NoiseType) (v : ℚ)
    (h : rolesExact e) : rolesExact (startNoise e t v) := by
  unfold startNoise
  have h1 : rolesExact { initContext e with baseNoiseVolume := v } := by
    have := initContext_rolesExact e h
    exact ⟨this.1, this.2⟩
  have h2 := stopNoise_rolesExact _ h1
  split
  · exact h2
  · refine ⟨?_, ?_⟩
    · show _ :: (stopNoise _).runningNoise = _
      rw [stopNoise_runningNoise _ h1.1]; rfl
    · exact h2.2

theorem startBinaural_rolesExact (e : Engine) (c b v : ℚ)
    (h : rolesExact e) : rolesExact (startBinaural e c b v) := by
  unfold startBinaural
  have h1 := initContext_rolesExact e h
  have h2 := stopBinaural_rolesExact _ h1
  refine ⟨h2.1, ?_⟩
  show _ :: (stopBinaural _).runningBinaural = _
  rw [stopBinaural_runningBinaural _ h1.2]; rfl

theorem micInit_roles (e : Engine) :
    (micInit e).runningNoise = e.runningNoise ∧
    (micInit e).noiseSrc = e.noiseSrc ∧
    (micInit e).runningBinaural = e.runningBinaural ∧
    (micInit e).binPair = e.binPair := by
  unfold micInit; split <;> simp

theorem enableAdaptiveNoise_rolesExact (e : Engine) (en g : Bool)
    (h : rolesExact e) : rolesExact (enableAdaptiveNoise e en g) := by
  have h1 := initContext_rolesExact { e with isAdaptive := true } ⟨h.1, h.2⟩
  have m := micInit_roles (initContext { e with isAdaptive := true })
  cases en with
  | false => exact ⟨h.1, h.2⟩
  | true =>
    cases g with
    | false => exact ⟨h.1, h.2⟩
    | true =>
      refine ⟨?_, ?_⟩
      · show (micInit _).runningNoise = (micInit _).noiseSrc.toList
        rw [m.1, m.2.1]; exact h1.1
      · show (micInit _).runningBinaural = (micInit _).binPair.toList
        rw [m.2.2.1, m.2.2.2]; exact h1.2

theorem musicInit_roles (e : Engine) :
    (musicInit e).runningNoise = e.runningNoise ∧
    (musicInit e).noiseSrc = e.noiseSrc ∧
    (musicInit e).runningBinaural = e.runningBinaural ∧
    (musicInit e).binPair = e.binPair := by
  unfold musicInit; split <;> simp

theorem addVoices_roles (ns : List Note) (e : Engine) :
    (addVoices e ns).runningNoise = e.runningNoise ∧
    (addVoices e ns).noiseSrc = e.noiseSrc ∧
    (addVoices e ns).runningBinaural = e.runningBinaural ∧
    (addVoices e ns).binPair = e.binPair := by
  induction ns generalizing e with
  | nil => exact ⟨rfl, rfl, rfl, rfl⟩
  | cons n ns ih =>
      simpa [addVoices] using
        ih { e with fresh := e.fresh + 1, conns := e.conns ++ noteConns e.fresh }

theorem playComposition_rolesExact (e : Engine) (ns : List Note)
    (h : rolesExact e) : rolesExact (playComposition e ns) := by
  have h1 := initContext_rolesExact e h
  have m := musicInit_roles (initContext e)
  have h2 : rolesExact (musicInit (initContext e)) :=
    ⟨by rw [m.1, m.2.1]; exact h1.1, by rw [m.2.2.1, m.2.2.2]; exact h1.2⟩
  have f := addVoices_roles ns (musicInit (initContext e))
  exact ⟨by rw [playComposition, f.1, f.2.1]; exact h2.1,
         by rw [playComposition, f.2.2.1, f.2.2.2]; exact h2.2⟩

theorem stopAll_rolesExact (e : Engine) (h : rolesExact e) :
    rolesExact (stopAll e) := by
  unfold stopAll
  have h2 := stopNoise_rolesExact _ (stopBinaural_rolesExact e h)
  exact ⟨h2.1, h2.2⟩

theorem stepOp_rolesExact (e : Engine) (op : EngOp) (h : rolesExact e) :
    rolesExact (stepOp e op) := by
  cases op with
  | startNoise t v => exact startNoise_rolesExact e t v h
  | stopNoise => exact stopNoise_rolesExact e h
  | startBinaural c b v => exact startBinaural_rolesExact e c b v h
  | stopBinaural => exact stopBinaural_rolesExact e h
  | enableAdaptive en g => exact enableAdaptiveNoise_rolesExact e en g h
  | playComposition ns => exact playComposition_rolesExact e ns h
  | stopAll => exact stopAll_rolesExact e h

theorem run_rolesExact (ops : List EngOp) : rolesExact (run ops) := by
  suffices h : ∀ e, rolesExact e → rolesExact (ops.foldl stepOp e) from
    h _ rolesExact_initial
  induction ops with
  | nil => exact fun e he => he
  | cons op ops ih => exact fun e he => ih _ (stepOp_rolesExact e op he)

theorem toList_length_le_one (o : Option ℕ) : o.toList.length ≤ 1 := by
  cases o <;> simp

theorem startNoise_on_noiseSrc (e : Engine) (t : NoiseType) (v : ℚ)
    (ht : t ≠ NoiseType.off) : ∃ g, (startNoise e t v).noiseSrc = some g := by
  refine ⟨(stopNoise { initContext e with baseNoiseVolume := v }).fresh, ?_⟩
  simp only [startNoise, if_neg ht]

/-- C3: after any sequence of engine calls at most one noise source and at
most one binaural oscillator pair are running — every `start*` call stops
and disconnects the prior holder of its role first — and in particular two
consecutive `startNoise` calls with an audible noise type leave exactly one
running noise source. -/
theorem single_source_invariant (ops : List EngOp) (t t' : NoiseType)
    (v v' : ℚ) (h : t' ≠ NoiseType.off) :
    (run ops).runningNoise.length ≤ 1 ∧
    (run ops).runningBinaural.length ≤ 1 ∧
    (startNoise (startNoise (run ops) t v) t' v').runningNoise.length = 1 := by
  have hr := run_rolesExact ops
  refine ⟨?_, ?_, ?_⟩
  · rw [hr.1]; exact toList_length_le_one _
  · rw [hr.2]; exact toList_length_le_one _
  · have h1 := startNoise_rolesExact (run ops) t v hr
    have h2 := startNoise_rolesExact (startNoise (run ops) t v) t' v' h1
    obtain ⟨g, hg⟩ := startNoise_on_noiseSrc (startNoise (run ops) t v) t' v' h
    rw [h2.1, hg]
    rfl

/-- C3 witness: the invariant instantiated at a concrete call sequence and
concrete noise parameters. -/
theorem single_source_invariant_witness :
    (run [EngOp.startBinaural 150 (5/2) (1/2), EngOp.startNoise .brown (3/20)]).runningNoise.length ≤ 1 ∧
    (run [EngOp.startBinaural 150 (5/2) (1/2), EngOp.startNoise .brown (3/20)]).runningBinaural.length ≤ 1 ∧
    (startNoise (startNoise
        (run [EngOp.startBinaural 150 (5/2) (1/2), EngOp.startNoise .brown (3/20)])
        NoiseType.white (1/10)) NoiseType.white (1/10)).runningNoise.length = 1 :=
  single_source_invariant _ _ _ _ _ (by decide)

/-- C2: `startBinaural(carrier, beat, volume)` sets the oscillator feeding
merger input channel 0 (the left ear) to `carrier` and the oscillator
feeding merger input channel 1 (the right ear) to `carrier + beat`,
exactly. -/
theorem startBinaural_freqs (e : Engine) (c b v : ℚ)
    (hc : 0 < c) (hb : 0 ≤ b) :
    (startBinaural e c b v).leftFreq = some c ∧
    (startBinaural e c b v).rightFreq = some (c + b) ∧
    ∃ g, (startBinaural e c b v).binPair = some g ∧
      (⟨.leftOsc g, .leftChGain g, none⟩ : Conn) ∈ (startBinaural e c b v).conns ∧
      (⟨.leftChGain g, .binMerger g, some 0⟩ : Conn) ∈ (startBinaural e c b v).conns ∧
      (⟨.rightOsc g, .rightChGain g, none⟩ : Conn) ∈ (startBinaural e c b v).conns ∧
      (⟨.rightChGain g, .binMerger g, some 1⟩ : Conn) ∈ (startBinaural e c b v).conns := by
  refine ⟨rfl, rfl, (stopBinaural (initContext e)).fresh, rfl, ?_, ?_, ?_, ?_⟩ <;>
    simp [startBinaural]

/-- C2 witness: the binaural frequency theorem at the delta station's
parameters (carrier 150 Hz, beat 2.5 Hz). -/
theorem startBinaural_freqs_witness :
    (startBinaural initialEngine 150 (5/2) (1/2)).leftFreq = some 150 ∧
    (startBinaural initialEngine 150 (5/2) (1/2)).rightFreq = some (150 + 5/2) ∧
    ∃ g, (startBinaural initialEngine 150 (5/2) (1/2)).binPair = some g ∧
      (⟨.leftOsc g, .leftChGain g, none⟩ : Conn)
        ∈ (startBinaural initialEngine 150 (5/2) (1/2)).conns ∧
      (⟨.leftChGain g, .binMerger g, some 0⟩ : Conn)
        ∈ (startBinaural initialEngine 150 (5/2) (1/2)).conns ∧
      (⟨.rightOsc g, .rightChGain g, none⟩ : Conn)
        ∈ (startBinaural initialEngine 150 (5/2) (1/2)).conns ∧
      (⟨.rightChGain g, .binMerger g, some 1⟩ : Conn)
        ∈ (startBinaural initialEngine 150 (5/2) (1/2)).conns :=
  startBinaural_freqs initialEngine 150 (5/2) (1/2) (by norm_num) (by norm_num)

/-- C10: `startNoise(NoiseType.OFF, v)` stops the running noise source if
any, records `v` as the stored base noise volume, and creates no new source:
afterwards no noise source is running, the role reference is null, and the
fresh-node counter is untouched. -/
theorem startNoise_off (e : Engine) (v : ℚ)
    (h : e.runningNoise = e.noiseSrc.toList) :
    (startNoise e NoiseType.off v).runningNoise = [] ∧
    (startNoise e NoiseType.off v).noiseSrc = none ∧
    (startNoise e NoiseType.off v).baseNoiseVolume = v ∧
    (startNoise e NoiseType.off v).fresh = e.fresh := by
  unfold startNoise
  rw [if_pos rfl]
  have hroles : ({ initContext e with baseNoiseVolume := v } : Engine).runningNoise
      = ({ initContext e with baseNoiseVolume := v } : Engine).noiseSrc.toList := by
    have i := initContext_roles e
    show (initContext e).runningNoise = (initContext e).noiseSrc.toList
    rw [i.1, i.2.1]; exact h
  refine ⟨stopNoise_runningNoise _ hroles, stopNoise_noiseSrc _, ?_, ?_⟩
  · rw [(stopNoise_bin _).2.2.2]
  · rw [(stopNoise_bin _).2.2.1]
    show (initContext e).fresh = e.fresh
    exact (initContext_roles e).2.2.2.2

/-- C10 witness: switching noise off on an engine that has a brown noise
source running. -/
theorem startNoise_off_witness :
    (startNoise (run [EngOp.startNoise .brown (3/20)]) NoiseType.off (1/4)).runningNoise = [] ∧
    (startNoise (run [EngOp.startNoise .brown (3/20)]) NoiseType.off (1/4)).noiseSrc = none ∧
    (startNoise (run [EngOp.startNoise .brown (3/20)]) NoiseType.off (1/4)).baseNoiseVolume = 1/4 ∧
    (startNoise (run [EngOp.startNoise .brown (3/20)]) NoiseType.off (1/4)).fresh
      = (run [EngOp.startNoise .brown (3/20)]).fresh :=
  startNoise_off _ _ (run_rolesExact [EngOp.startNoise .brown (3/20)]).1

/-!
## Microphone isolation (claim C8)

The only connection ever created from the microphone source is the one to
the analyser node, and the analyser itself is never connected anywhere.
`micSafe` captures that edge-level fact; `Reaches` is transitive
connectivity over the current connection list.
-/

/-- Edge-level microphone safety: an edge out of the mic source can only go
to the analyser, and no edge leaves the analyser. -/
def micConnOK (c : Conn) : Prop :=
  (c.src = NodeId.micSource → c.dst = NodeId.micAnalyser) ∧
  c.src ≠ NodeId.micAnalyser

instance (c : Conn) : Decidable (micConnOK c) := by
  unfold micConnOK; infer_instance

/-- Every current connection is microphone-safe. -/
def micSafe (e : Engine) : Prop := ∀ c ∈ e.conns, micConnOK c

theorem micSafe_append {cs l : List Conn} (h1 : ∀ c ∈ cs, micConnOK c)
    (h2 : ∀ c ∈ l, micConnOK c) : ∀ c ∈ cs ++ l, micConnOK c := by
  intro c hc
  rcases List.mem_append.mp hc with h | h
  · exact h1 c h
  · exact h2 c h

theorem micSafe_filter {cs : List Conn} (p : Conn → Bool)
    (h : ∀ c ∈ cs, micConnOK c) : ∀ c ∈ cs.filter p, micConnOK c :=
  fun c hc => h c (List.mem_of_mem_filter hc)

theorem baseConns_ok : ∀ c ∈ baseConns, micConnOK c := by decide

theorem noteConns_ok (g : ℕ) : ∀ c ∈ noteConns g, micConnOK c := by
  intro c hc
  simp only [noteConns, List.mem_cons, List.mem_singleton] at hc
  rcases hc with rfl | rfl | rfl | rfl | rfl | h <;> simp_all [micConnOK]

theorem micSafe_initial : micSafe initialEngine := by
  intro c hc
  simp [initialEngine] at hc

theorem initContext_micSafe (e : Engine) (h : micSafe e) :
    micSafe (initContext e) := by
  unfold initContext; split
  · exact h
  · exact micSafe_append h baseConns_ok

theorem stopNoise_micSafe (e : Engine) (h : micSafe e) :
    micSafe (stopNoise e) := by
  unfold stopNoise; split
  · exact micSafe_filter _ h
  · exact h

theorem startNoise_micSafe (e : Engine) (t : NoiseType) (v : ℚ)
    (h : micSafe e) : micSafe (startNoise e t v) := by
  have h1 : micSafe ({ initContext e with baseNoiseVolume := v } : Engine) :=
    initContext_micSafe e h
  have h2 := stopNoise_micSafe _ h1
  unfold startNoise
  split
  · exact h2
  · refine micSafe_append h2 ?_
    intro c hc
    simp only [List.mem_cons, List.mem_singleton] at hc
    rcases hc with rfl | rfl | rfl | h <;> simp_all [micConnOK]

theorem stopBinaural_micSafe (e : Engine) (h : micSafe e) :
    micSafe (stopBinaural e) := by
  unfold stopBinaural; split
  · exact micSafe_filter _ (micSafe_filter _ h)
  · exact h

theorem startBinaural_micSafe (e : Engine) (c b v : ℚ)
    (h : micSafe e) : micSafe (startBinaural e c b v) := by
  have h2 := stopBinaural_micSafe _ (initContext_micSafe e h)
  unfold startBinaural
  refine micSafe_append h2 ?_
  intro x hx
  simp only [List.mem_cons, List.mem_singleton] at hx
  rcases hx with rfl | rfl | rfl | rfl | rfl | rfl | hx <;> simp_all [micConnOK]

theorem micInit_micSafe (e : Engine) (h : micSafe e) :
    micSafe (micInit e) := by
  unfold micInit; split
  · exact h
  · refine micSafe_append h ?_
    intro c hc
    simp only [List.mem_singleton] at hc
    subst hc
    exact ⟨fun _ => rfl, by simp⟩

theorem enableAdaptiveNoise_micSafe (e : Engine) (en g : Bool)
    (h : micSafe e) : micSafe (enableAdaptiveNoise e en g) := by
  have h1 : micSafe ({ e with isAdaptive := true } : Engine) := h
  cases en with
  | false => exact h
  | true =>
    cases g with
    | false => exact h
    | true => exact micInit_micSafe _ (initContext_micSafe _ h1)

theorem musicInit_micSafe (e : Engine) (h : micSafe e) :
    micSafe (musicInit e) := by
  unfold musicInit; split
  · exact h
  · refine micSafe_append h ?_
    intro c hc
    simp only [List.mem_cons, List.mem_singleton] at hc
    rcases hc with rfl | rfl | rfl | h <;> simp_all [micConnOK]

theorem addVoices_micSafe (ns : List Note) (e : Engine) (h : micSafe e) :
    micSafe (addVoices e ns) := by
  induction ns generalizing e with
  | nil => exact h
  | cons n ns ih =>
      have : micSafe ({ e with fresh := e.fresh + 1, conns := e.conns ++ noteConns e.fresh } : Engine) :=
        micSafe_append h (noteConns_ok e.fresh)
      simpa [addVoices] using ih _ this

theorem playComposition_micSafe (e : Engine) (ns : List Note)
    (h : micSafe e) : micSafe (playComposition e ns) :=
  addVoices_micSafe ns _ (musicInit_micSafe _ (initContext_micSafe e h))

theorem stopAll_micSafe (e : Engine) (h : micSafe e) :
    micSafe (stopAll e) :=
  stopNoise_micSafe _ (stopBinaural_micSafe e h)

theorem stepOp_micSafe (e : Engine) (op : EngOp) (h : micSafe e) :
    micSafe (stepOp e op) := by
  cases op with
  | startNoise t v => exact startNoise_micSafe e t v h
  | stopNoise => exact stopNoise_micSafe e h
  | startBinaural c b v => exact startBinaural_micSafe e c b v h
  | stopBinaural => exact stopBinaural_micSafe e h
  | enableAdaptive en g => exact enableAdaptiveNoise_micSafe e en g h
  | playComposition ns => exact playComposition_micSafe e ns h
  | stopAll => exact stopAll_micSafe e h

theorem run_micSafe (ops : List EngOp) : micSafe (run ops) := by
  suffices h : ∀ e, micSafe e → micSafe (ops.foldl stepOp e) from
    h _ micSafe_initial
  induction ops with
  | nil => exact fun e he => he
  | cons op ops ih => exact fun e he => ih _ (stepOp_micSafe e op he)

/-- Transitive connectivity along the current connection list. -/
inductive Reaches (cs : List Conn) : NodeId → NodeId → Prop where
  | refl (n : NodeId) : Reaches cs n n
  | step {a b c : NodeId} (ch : Option ℕ) (hmem : (⟨a, b, ch⟩ : Conn) ∈ cs)
      (htail : Reaches cs b c) : Reaches cs a c

theorem reaches_from_analyser (cs : List Conn)
    (hs : ∀ c ∈ cs, micConnOK c) (a d : NodeId) (h : Reaches cs a d)
    (ha : a = NodeId.micAnalyser) : d = NodeId.micAnalyser := by
  induction h with
  | refl n => exact ha
  | step ch hmem htail ih =>
      subst ha
      exact absurd rfl (hs _ hmem).2

theorem reaches_from_mic (cs : List Conn)
    (hs : ∀ c ∈ cs, micConnOK c) (a d : NodeId) (h : Reaches cs a d)
    (ha : a = NodeId.micSource) :
    d = NodeId.micSource ∨ d = NodeId.micAnalyser := by
  induction h with
  | refl n => exact Or.inl ha
  | step ch hmem htail ih =>
      subst ha
      have hb := (hs _ hmem).1 rfl
      exact Or.inr (reaches_from_analyser cs hs _ _ htail hb)

/-- C8: in every state reachable by engine calls, the microphone source
reaches (directly or transitively) only itself and the analyser node — in
particular it never reaches the master gain or the context destination, so
no microphone audio is ever routed to an audible output. -/
theorem mic_never_reaches_output (ops : List EngOp) (d : NodeId)
    (h : Reaches (run ops).conns NodeId.micSource d) :
    (d = NodeId.micSource ∨ d = NodeId.micAnalyser) ∧
    d ≠ NodeId.masterGain ∧ d ≠ NodeId.destination := by
  have hs := run_micSafe ops
  have hd := reaches_from_mic _ hs _ _ h rfl
  refine ⟨hd, ?_, ?_⟩ <;> rcases hd with rfl | rfl <;> simp

/-- C8 witness: with adaptive noise enabled (microphone granted), the edge
micSource → micAnalyser exists and the theorem applies to the path ending
at the analyser. -/
theorem mic_never_reaches_output_witness :
    (NodeId.micAnalyser = NodeId.micSource ∨ NodeId.micAnalyser = NodeId.micAnalyser) ∧
    NodeId.micAnalyser ≠ NodeId.masterGain ∧
    NodeId.micAnalyser ≠ NodeId.destination :=
  mic_never_reaches_output [EngOp.enableAdaptive true true] NodeId.micAnalyser
    (Reaches.step none (by decide) (Reaches.refl _))

/-!
## Pitch-name to frequency conversion (claim C4)

`getFrequency` (audioEngine lines 235-243) slices the last character of the
pitch name as the octave (`parseInt(note.slice(-1))`), looks the remaining
key up in the chromatic table, returns the fixed 200 Hz fallback when the
key is unknown, and otherwise returns `440 * 2^((midiBase - 69) / 12)` with
`midiBase = (octave + 1) * 12 + semitone`.  Because the frequency values
are of the shape `440·2^((m-69)/12)`, `NaN` or the fixed `200`, the result
is represented symbolically by `FreqVal`; `FreqVal.tet m` denotes
`440·2^((m-69)/12)` Hz and `FreqVal.fallbackHz` denotes `200` Hz.  `NaN`
arises when the key is found but the last character is not a digit:
`parseInt` yields `NaN`, which propagates through `midiBase` and `Math.pow`.
-/

/-- The chromatic note table (`const notes = [...]` in `getFrequency`). -/
def noteNames : List String :=
  ["C", "C#", "D", "D#"] ++
  ["E", "F", "F#", "G"] ++
  ["G#", "A", "A#", "B"]

/-- Model of `parseInt(c)` for a single character: its value for a decimal digit,
`NaN` (here `none`) otherwise. -/
def digitOfChar (c : Char) : Option ℕ :=
  if c.isDigit then some (c.toNat - 48) else none

/-- Model of `parseInt(note.slice(-1))`: parse the last character as a digit. -/
def parseIntLastChar (s : String) : Option ℕ := s.data.getLast?.bind digitOfChar

/-- Model of `note.slice(0, -1)`: everything but the last character. -/
def keyOf (s : String) : String := String.mk s.data.dropLast

/-- Model of `Array.prototype.indexOf`, with `-1` rendered as `none`. -/
def indexOfStr (key : String) : List String → Option ℕ
  | [] => none
  | x :: xs => if key = x then some 0 else (indexOfStr key xs).map (· + 1)

/-- Symbolic value of the frequency returned by `getFrequency`. -/
inductive FreqVal where
  | nan
  | fallbackHz
  | tet (midiBase : ℕ)
deriving DecidableEq, Repr

/-- Model of `getFrequency` (lines 235-243). -/
def getFrequency (note : String) : FreqVal :=
  match indexOfStr (keyOf note) noteNames with
  | none => .fallbackHz
  | some semitone =>
      match parseIntLastChar note with
      | none => .nan
      | some octave => .tet ((octave + 1) * 12 + semitone)

/-- Spec-side 12-tone-equal-temperament semitone table: the MIDI number of
`key` at octave `o` is `12 * (o + 1) + specSemitone key` (A4 ↦ 69). -/
def specSemitone (key : String) : Option ℕ :=
  if key = "C" then some 0
  else if key = "C#" then some 1
  else if key = "D" then some 2
  else if key = "D#" then some 3
  else if key = "E" then some 4
  else if key = "F" then some 5
  else if key = "F#" then some 6
  else if key = "G" then some 7
  else if key = "G#" then some 8
  else if key = "A" then some 9
  else if key = "A#" then some 10
  else if key = "B" then some 11
  else none

theorem indexOfStr_noteNames (s : String) :
    indexOfStr s noteNames = specSemitone s := by
  rcases eq_or_ne s "C" with rfl | h1
  · decide
  rcases eq_or_ne s "C#" with rfl | h2
  · decide
  rcases eq_or_ne s "D" with rfl | h3
  · decide
  rcases eq_or_ne s "D#" with rfl | h4
  · decide
  rcases eq_or_ne s "E" with rfl | h5
  · decide
  rcases eq_or_ne s "F" with rfl | h6
  · decide
  rcases eq_or_ne s "F#" with rfl | h7
  · decide
  rcases eq_or_ne s "G" with rfl | h8
  · decide
  rcases eq_or_ne s "G#" with rfl | h9
  · decide
  rcases eq_or_ne s "A" with rfl | h10
  · decide
  rcases eq_or_ne s "A#" with rfl | h11
  · decide
  rcases eq_or_ne s "B" with rfl | h12
  · decide
  simp [noteNames, indexOfStr, specSemitone,
    h1, h2, h3, h4, h5, h6, h7, h8, h9, h10, h11, h12]

/-- C4 counterexample: "AB" is not a valid pitch name (its last character
is not a digit), yet `getFrequency` does not return the fixed 200 Hz
fallback for it — the key "A" is found, `parseInt("B")` is `NaN`, and the
call returns `NaN` Hz. -/
theorem getFrequency_unrecognized_not_fallback :
    digitOfChar 'B' = none ∧
    getFrequency "AB" = FreqVal.nan ∧
    FreqVal.nan ≠ FreqVal.fallbackHz := by decide

/-- C4 (amended): for a pitch name `key ++ digit` whose key is in the
chromatic table, `getFrequency` returns the 12-TET frequency
`440·2^((midi-69)/12)` with `midi = 12·(octave+1) + semitone`; when the key
part is not in the table it returns the fixed 200 Hz fallback; when the key
is in the table but the final character is not a digit it returns `NaN`
(not the fallback).  It never throws in any case. -/
theorem getFrequency_amended (key : String) (oc : Char) (note : String)
    (h1 : note.data = key.data ++ [oc]) :
    getFrequency note =
      match specSemitone key, digitOfChar oc with
      | none, _ => FreqVal.fallbackHz
      | some _, none => FreqVal.nan
      | some s, some octave => FreqVal.tet (12 * (octave + 1) + s) := by
  have hkey : keyOf note = key := by
    unfold keyOf
    rw [h1, List.dropLast_concat]
  have hlast : note.data.getLast? = some oc := by
    rw [h1]
    exact List.getLast?_concat _
  unfold getFrequency parseIntLastChar
  rw [hkey, hlast, indexOfStr_noteNames]
  cases hs : specSemitone key with
  | none => rfl
  | some s =>
      cases hd : digitOfChar oc with
      | none => simp [Option.bind, hd]
      | some octave =>
          simp only [Option.some_bind, hd]
          rw [Nat.mul_comm]

/-- C4 witness: the amended theorem applied to the valid pitch "A4", whose
MIDI number is 69 (the 440 Hz reference). -/
theorem getFrequency_amended_witness :
    getFrequency "A4" = FreqVal.tet 69 :=
  (getFrequency_amended "A" '4' "A4" (by decide)).trans (by decide)

/-!
## Adaptive loudness mapping (claim C5)

The body of the 500 ms polling callback in `startAdaptiveLoop`
(audioEngine lines 121-152).
-/

/-- The unweighted average of the analyser's byte frequency data. -/
def averageOf (bins : List ℕ) : ℚ :=
  (bins.map (fun b => (b : ℚ))).sum / bins.length

/-- The deadband-plus-linear boost: zero at or below the floor of 20,
`min((average - 20) / 200, 0.3)` above it. -/
def computeBoost (average : ℚ) : ℚ :=
  if average > 20 then min ((average - 20) / 200) (3/10) else 0

/-- The target applied to the noise gain: `min(base + boost, 0.8)`. -/
def adaptiveTargetVol (base average : ℚ) : ℚ :=
  min (base + computeBoost average) (8/10)

/-- C5: for an average sample `a ∈ [0, 255]` and base volume `b`, the boost
is 0 when `a ≤ 20` and `min((a-20)/200, 0.3)` when `a > 20`, the applied
gain target is `min(b + boost, 0.8)`, and that target never exceeds 0.8. -/
theorem adaptive_boost_cap (a b : ℚ) (h0 : 0 ≤ a) (h255 : a ≤ 255) :
    (a ≤ 20 → computeBoost a = 0) ∧
    (20 < a → computeBoost a = min ((a - 20) / 200) (3/10)) ∧
    adaptiveTargetVol b a = min (b + computeBoost a) (8/10) ∧
    adaptiveTargetVol b a ≤ 8/10 := by
  refine ⟨fun h => ?_, fun h => ?_, rfl, min_le_right _ _⟩
  · simp [computeBoost, not_lt.mpr h]
  · simp [computeBoost, h]

/-- C5 witness: the mapping at average 220 with base volume 0.15. -/
theorem adaptive_boost_cap_witness :
    ((220 : ℚ) ≤ 20 → computeBoost 220 = 0) ∧
    ((20 : ℚ) < 220 → computeBoost 220 = min ((220 - 20) / 200) (3/10)) ∧
    adaptiveTargetVol (3/20) 220 = min (3/20 + computeBoost 220) (8/10) ∧
    adaptiveTargetVol (3/20) 220 ≤ 8/10 :=
  adaptive_boost_cap 220 (3/20) (by norm_num) (by norm_num)

/-!
## Preset save / load round trip (claim C9)

`savePreset` (App.tsx lines 204-225) copies the current station's carrier,
beat and mood, the selected noise type and noise volume into an
`AgenticConfig`, and stores the current composition verbatim.  `loadPreset`
(lines 227-239) copies those values straight back into the station state,
the noise type and the composition.  The preset `id` and `date` come from
`Date.now()` and the display label from `toLocaleTimeString()`; both are
environment inputs and appear here as parameters.
-/

/-- A radio station configuration (the `STATIONS` entries / `currentStation`
state in App.tsx). -/
structure Station where
  id : String
  name : String
  carrier : ℚ
  beat : ℚ
  desc : String
  mood : String
deriving DecidableEq, Repr

/-- Model of `AgenticConfig` (types.ts). -/
structure AgenticConfig where
  stationName : String
  carrierFreq : ℚ
  beatFreq : ℚ
  noiseType : NoiseType
  noiseVolume : ℚ
  musicPrompt : String
  reasoning : String
deriving DecidableEq, Repr

/-- Model of `SavedPreset` (App.tsx lines 19-25). -/
structure SavedPreset where
  id : String
  name : String
  config : AgenticConfig
  composition : Composition
  date : ℕ
deriving DecidableEq, Repr

/-- The slice of App state that `savePreset` / `loadPreset` read or write. -/
structure AppState where
  currentStation : Station
  noiseType : NoiseType
  volNoise : ℚ
  composition : Option Composition
deriving DecidableEq, Repr

/-- Model of `savePreset` (lines 204-225): no-op (`none`) when there is no current
composition; otherwise builds the preset record.  `idStr`/`dateN` stand for
`Date.now()`, `timeLabel` for `toLocaleTimeString()`. -/
def savePreset (s : AppState) (idStr timeLabel : String) (dateN : ℕ) :
    Option SavedPreset :=
  match s.composition with
  | none => none
  | some comp =>
      some
        { id := idStr
          name := if s.currentStation.name = "Estación Personalizada"
                  then "Sesión " ++ timeLabel else s.currentStation.name
          config :=
            { stationName := s.currentStation.name
              carrierFreq := s.currentStation.carrier
              beatFreq := s.currentStation.beat
              noiseType := s.noiseType
              noiseVolume := s.volNoise
              musicPrompt := s.currentStation.mood
              reasoning := "User saved" }
          composition := comp
          date := dateN }

/-- Model of `loadPreset` (lines 227-239): restore station, noise type and
composition from the preset. -/
def loadPreset (s : AppState) (p : SavedPreset) : AppState :=
  { s with
    currentStation :=
      { id := "saved"
        name := p.config.stationName
        carrier := p.config.carrierFreq
        beat := p.config.beatFreq
        desc := "Desde Biblioteca"
        mood := p.config.musicPrompt }
    noiseType := p.config.noiseType
    composition := some p.composition }

/-- C9: whenever `savePreset` produces a preset (i.e. a current composition
exists), loading that preset back — from any later state `s2` — restores
exactly the carrier frequency, beat frequency, noise type and composition
(note list included) that were current at save time, value for value. -/
theorem preset_roundtrip (s1 s2 : AppState) (idStr timeLabel : String)
    (dateN : ℕ) (p : SavedPreset)
    (h : savePreset s1 idStr timeLabel dateN = some p) :
    (loadPreset s2 p).currentStation.carrier = s1.currentStation.carrier ∧
    (loadPreset s2 p).currentStation.beat = s1.currentStation.beat ∧
    (loadPreset s2 p).noiseType = s1.noiseType ∧
    (loadPreset s2 p).composition = s1.composition := by
  unfold savePreset at h
  cases hc : s1.composition with
  | none => rw [hc] at h; cases h
  | some comp =>
      rw [hc] at h
      cases h
      exact ⟨rfl, rfl, rfl, rfl⟩

/-- C9 witness: the round trip at a concrete state holding the delta
station and a one-note composition. -/
theorem preset_roundtrip_witness :
    (loadPreset
      ⟨⟨"alpha", "Estación Calma", 200, 10, "Ondas Alpha (8-12Hz)", "Peaceful"⟩,
       NoiseType.off, 1/10, none⟩
      ⟨"101", "Estación Profunda",
       ⟨"Estación Profunda", 150, 5/2, NoiseType.brown, 3/20,
        "Deep sleep, cosmic, heavy slow pads", "User saved"⟩,
       ⟨"Luna", [⟨"A4", 2, 0⟩], 60, "calm"⟩, 101⟩).currentStation.carrier = 150 ∧
    (loadPreset
      ⟨⟨"alpha", "Estación Calma", 200, 10, "Ondas Alpha (8-12Hz)", "Peaceful"⟩,
       NoiseType.off, 1/10, none⟩
      ⟨"101", "Estación Profunda",
       ⟨"Estación Profunda", 150, 5/2, NoiseType.brown, 3/20,
        "Deep sleep, cosmic, heavy slow pads", "User saved"⟩,
       ⟨"Luna", [⟨"A4", 2, 0⟩], 60, "calm"⟩, 101⟩).currentStation.beat = 5/2 ∧
    (loadPreset
      ⟨⟨"alpha", "Estación Calma", 200, 10, "Ondas Alpha (8-12Hz)", "Peaceful"⟩,
       NoiseType.off, 1/10, none⟩
      ⟨"101", "Estación Profunda",
       ⟨"Estación Profunda", 150, 5/2, NoiseType.brown, 3/20,
        "Deep sleep, cosmic, heavy slow pads", "User saved"⟩,
       ⟨"Luna", [⟨"A4", 2, 0⟩], 60, "calm"⟩, 101⟩).noiseType = NoiseType.brown ∧
    (loadPreset
      ⟨⟨"alpha", "Estación Calma", 200, 10, "Ondas Alpha (8-12Hz)", "Peaceful"⟩,
       NoiseType.off, 1/10, none⟩
      ⟨"101", "Estación Profunda",
       ⟨"Estación Profunda", 150, 5/2, NoiseType.brown, 3/20,
        "Deep sleep, cosmic, heavy slow pads", "User saved"⟩,
       ⟨"Luna", [⟨"A4", 2, 0⟩], 60, "calm"⟩, 101⟩).composition
      = some ⟨"Luna", [⟨"A4", 2, 0⟩], 60, "calm"⟩ :=
  preset_roundtrip
    ⟨⟨"delta", "Estación Profunda", 150, 5/2, "Ondas Delta (1-3Hz)",
      "Deep sleep, cosmic, heavy slow pads"⟩,
     NoiseType.brown, 3/20, some ⟨"Luna", [⟨"A4", 2, 0⟩], 60, "calm"⟩⟩
    ⟨⟨"alpha", "Estación Calma", 200, 10, "Ondas Alpha (8-12Hz)", "Peaceful"⟩,
     NoiseType.off, 1/10, none⟩
    "101" "12:00:00" 101 _ rfl

/-!
## Composer response handling (claim C6)

`generateLullaby` (geminiService lines 64-105) reads `response.text`,
returns `null` when it is missing or empty (`if (!text) return null`), and
otherwise returns `JSON.parse(text) as Composition`.  A thrown parse error
is caught by the surrounding `try`/`catch`, which returns `null`.  Note the
`as Composition` is a compile-time cast only: no structural validation of
the parsed value happens at run time.

`JSON.parse` is modelled by a fuel-driven recursive-descent parser over the
character list.  (It is slightly more liberal than the JSON grammar on
number tokens — leading zeros are accepted — which does not affect any
input used below.)
-/

/-- JSON values. -/
inductive Json where
  | null
  | bool (b : Bool)
  | num (q : ℚ)
  | str (s : String)
  | arr (elems : List Json)
  | obj (fields : List (String × Json))

/-- Opening curly bracket character. -/
def lbrace : Char := Char.ofNat 123

/-- Closing curly bracket character. -/
def rbrace : Char := Char.ofNat 125

def isWsChar (c : Char) : Bool :=
  [' ', '\t', '\n', '\r'].contains c

def skipWs : List Char → List Char
  | [] => []
  | c :: cs => if isWsChar c then skipWs cs else c :: cs

def takeDigits : List Char → List Char × List Char
  | [] => ([], [])
  | c :: cs =>
      if c.isDigit then
        let p := takeDigits cs
        (c :: p.1, p.2)
      else ([], c :: cs)

def digitsToNat (ds : List Char) : ℕ :=
  ds.foldl (fun acc c => acc * 10 + (c.toNat - 48)) 0

/-- Optional exponent part of a JSON number token. -/
def parseExpPart (q : ℚ) : List Char → Option (ℚ × List Char)
  | [] => some (q, [])
  | c :: cs =>
      if c == 'e' || c == 'E' then
        match cs with
        | [] => none
        | d :: ds =>
            if d == '+' then
              match takeDigits ds with
              | ([], _) => none
              | (es, rest) => some (q * 10 ^ digitsToNat es, rest)
            else if d == '-' then
              match takeDigits ds with
              | ([], _) => none
              | (es, rest) => some (q / 10 ^ digitsToNat es, rest)
            else
              match takeDigits (d :: ds) with
              | ([], _) => none
              | (es, rest) => some (q * 10 ^ digitsToNat es, rest)
      else some (q, c :: cs)

/-- A JSON number token: optional minus sign, integer part, optional
fraction, optional exponent. -/
def parseNumToken (input : List Char) : Option (ℚ × List Char) :=
  let signSplit :=
    match input with
    | c :: cs => if c == '-' then (true, cs) else (false, input)
    | [] => (false, ([] : List Char))
  match takeDigits signSplit.2 with
  | ([], _) => none
  | (ds, rest) =>
      let ip : ℚ := (digitsToNat ds : ℚ)
      let withFrac : Option (ℚ × List Char) :=
        match rest with
        | [] => some (ip, [])
        | c :: cs =>
            if c == '.' then
              match takeDigits cs with
              | ([], _) => none
              | (fs, rest2) =>
                  some (ip + (digitsToNat fs : ℚ) / 10 ^ fs.length, rest2)
            else some (ip, c :: cs)
      match withFrac with
      | none => none
      | some (q, rest2) =>
          match parseExpPart q rest2 with
          | none => none
          | some (q2, rest3) => some ((if signSplit.1 then -q2 else q2), rest3)

def hexVal (c : Char) : Option ℕ :=
  if c.isDigit then some (c.toNat - 48)
  else if 'a' ≤ c && c ≤ 'f' then some (c.toNat - 87)
  else if 'A' ≤ c && c ≤ 'F' then some (c.toNat - 55)
  else none

/-- Body of a JSON string token (after the opening quote), with the escape
sequences `JSON.parse` accepts. -/
def parseStrAux : ℕ → List Char → List Char → Option (String × List Char)
  | 0, _, _ => none
  | _ + 1, _, [] => none
  | fuel + 1, acc, c :: cs =>
      if c == '"' then some (String.mk acc.reverse, cs)
      else if c == '\\' then
        match cs with
        | [] => none
        | e :: cs2 =>
            if e == '"' then parseStrAux fuel ('"' :: acc) cs2
            else if e == '\\' then parseStrAux fuel ('\\' :: acc) cs2
            else if e == '/' then parseStrAux fuel ('/' :: acc) cs2
            else if e == 'n' then parseStrAux fuel ('\n' :: acc) cs2
            else if e == 't' then parseStrAux fuel ('\t' :: acc) cs2
            else if e == 'r' then parseStrAux fuel ('\r' :: acc) cs2
            else if e == 'b' then parseStrAux fuel (Char.ofNat 8 :: acc) cs2
            else if e == 'f' then parseStrAux fuel (Char.ofNat 12 :: acc) cs2
            else if e == 'u' then
              match cs2 with
              | h1 :: h2 :: h3 :: h4 :: cs3 =>
                  match hexVal h1, hexVal h2, hexVal h3, hexVal h4 with
                  | some a, some b, some c2, some d =>
                      parseStrAux fuel
                        (Char.ofNat (((a * 16 + b) * 16 + c2) * 16 + d) :: acc) cs3
                  | _, _, _, _ => none
              | _ => none
            else none
      else parseStrAux fuel (c :: acc) cs

/-- Comma-separated array items up to the closing square bracket; `pv`
parses one value. -/
def parseArrItems (pv : List Char → Option (Json × List Char)) :
    ℕ → List Char → Option (List Json × List Char)
  | 0, _ => none
  | fuel + 1, input =>
      match pv input with
      | none => none
      | some (v, rest) =>
          match skipWs rest with
          | [] => none
          | c :: cs =>
              if c == ',' then
                match parseArrItems pv fuel cs with
                | some (vs, rest2) => some (v :: vs, rest2)
                | none => none
              else if c == ']' then some ([v], cs)
              else none

/-- Comma-separated `"key": value` fields up to the closing curly
bracket. -/
def parseObjItems (pv : List Char → Option (Json × List Char)) :
    ℕ → List Char → Option (List (String × Json) × List Char)
  | 0, _ => none
  | fuel + 1, input =>
      match skipWs input with
      | [] => none
      | c :: cs =>
          if c == '"' then
            match parseStrAux (cs.length + 1) [] cs with
            | none => none
            | some (k, rest) =>
                match skipWs rest with
                | [] => none
                | c2 :: cs2 =>
                    if c2 == ':' then
                      match pv cs2 with
                      | none => none
                      | some (v, rest2) =>
                          match skipWs rest2 with
                          | [] => none
                          | c3 :: cs3 =>
                              if c3 == ',' then
                                match parseObjItems pv fuel cs3 with
                                | some (fs, r) => some ((k, v) :: fs, r)
                                | none => none
                              else if c3 == rbrace then some ([(k, v)], cs3)
                              else none
                    else none
          else none

/-- One JSON value: object, array, string, `true`, `false`, `null` or a
number token. -/
def parseVal : ℕ → List Char → Option (Json × List Char)
  | 0, _ => none
  | fuel + 1, input =>
      match skipWs input with
      | [] => none
      | c :: cs =>
          if c == lbrace then
            match skipWs cs with
            | [] => none
            | c2 :: cs2 =>
                if c2 == rbrace then some (.obj [], cs2)
                else
                  match parseObjItems (fun inp => parseVal fuel inp) fuel (c2 :: cs2) with
                  | some (fs, rest) => some (.obj fs, rest)
                  | none => none
          else if c == '[' then
            match skipWs cs with
            | [] => none
            | c2 :: cs2 =>
                if c2 == ']' then some (.arr [], cs2)
                else
                  match parseArrItems (fun inp => parseVal fuel inp) fuel (c2 :: cs2) with
                  | some (vs, rest) => some (.arr vs, rest)
                  | none => none
          else if c == '"' then
            match parseStrAux (cs.length + 1) [] cs with
            | some (s, rest) => some (.str s, rest)
            | none => none
          else if c == 't' then
            match cs with
            | 'r' :: 'u' :: 'e' :: rest => some (.bool true, rest)
            | _ => none
          else if c == 'f' then
            match cs with
            | 'a' :: 'l' :: 's' :: 'e' :: rest => some (.bool false, rest)
            | _ => none
          else if c == 'n' then
            match cs with
            | 'u' :: 'l' :: 'l' :: rest => some (.null, rest)
            | _ => none
          else
            match parseNumToken (c :: cs) with
            | some (q, rest) => some (.num q, rest)
            | none => none

/-- Model of `JSON.parse`: parse one value and require only trailing whitespace. -/
def jsonParse (s : String) : Option Json :=
  match parseVal (s.data.length + 2) s.data with
  | some (v, rest) => if (skipWs rest).isEmpty then some v else none
  | none => none

/-- Model of `generateLullaby`'s handling of the composer response (lines 98-104):
`undefined` text (`none`) and the empty string are both falsy and yield
`null`; a `JSON.parse` failure throws into the `catch`, which yields
`null`; a successful parse is returned unchanged — the `as Composition`
cast performs no validation. -/
def generateLullaby (respText : Option String) : Option Json :=
  match respText with
  | none => none
  | some t =>
      if t = "" then none
      else
        match jsonParse t with
        | none => none
        | some v => some v

/-- Does a parsed JSON value carry a given top-level field? -/
def jsonHasField (j : Json) (key : String) : Bool :=
  match j with
  | .obj fields => fields.any (fun f => f.1 == key)
  | _ => false

/-- C6 counterexample: the response text "5" parses as the JSON number 5 —
a structurally invalid composition with no `notes` field — yet
`generateLullaby` returns it instead of "no composition": no required-field
validation happens before the result is used. -/
theorem generateLullaby_no_validation :
    jsonHasField (Json.num 5) "notes" = false ∧
    generateLullaby (some "5") = some (Json.num 5) := by
  exact ⟨rfl, rfl⟩

/-- C6 (amended): `generateLullaby` yields "no composition" (`none`)
exactly for a missing text, an empty text, or a text `JSON.parse` rejects —
and it never throws; but any successfully parsed JSON value is returned
as-is, with no structural validation of required fields. -/
theorem generateLullaby_amended (t : String) (v : Json) :
    generateLullaby none = none ∧
    generateLullaby (some "") = none ∧
    (jsonParse t = none → generateLullaby (some t) = none) ∧
    (jsonParse t = some v → generateLullaby (some t) = some v) := by
  have hbody : generateLullaby (some t)
      = if t = "" then none
        else
          match jsonParse t with
          | none => none
          | some v => some v := rfl
  refine ⟨rfl, rfl, ?_, ?_⟩
  · intro h
    rw [hbody, h]
    split <;> rfl
  · intro h
    have ht : ¬ t = "" := by
      intro he
      subst he
      rw [show jsonParse "" = none from rfl] at h
      cases h
    rw [hbody, if_neg ht, h]

/-- C6 witness: the amended theorem applied to the parseable response text
"5". -/
theorem generateLullaby_amended_witness :
    generateLullaby (some "5") = some (Json.num 5) :=
  (generateLullaby_amended "5" (Json.num 5)).2.2.2 rfl

end NanaAI
